import Mathlib

/-!
Verification of the FASTA parsing and statistics engine of
`src/data/parser.py` (class `GPCRFastaParser`).

The embedding models:
- the Python string helpers the code uses (`str.split()`, `str.rstrip()`,
  `str.replace(x, '')`, `str.count`),
- the Biopython record reader the code delegates to
  (`Bio.SeqIO.parse(_, "fasta")`, i.e. `SimpleFastaParser` plus the
  `FastaIterator` record construction),
- the regular-expression search `re.search(r'UniRef\d+_([A-Z0-9]+)', header)`
  specialised to that one pattern (for this pattern greedy matching and
  backtracking collapse to a deterministic scan, see `uniRefCapture`),
- the methods `parse`, `_extract_uniref_id`, `get_sequence_by_id`,
  `remove_gaps` and `get_statistics`.

Strings are `List Char`; input sources are lists of lines (each line without
its terminating newline).  Exact rational arithmetic stands in for Python
floats: `round(x, 2)` is modelled as round-half-to-even on `ℚ`, which agrees
with CPython on every value that is exactly representable.  Python exceptions
(`KeyError` from a missing dataframe column, `IndexError` from `[0]` on an
empty list, `ValueError` raised explicitly) are modelled as `Except` errors.
-/

namespace GPCR

/-- Python whitespace test used by `str.split()` / `str.rstrip()` for the
ASCII range: space, tab, newline, carriage return, vertical tab, form feed. -/
def pyIsSpace (c : Char) : Bool :=
  c == ' ' || c == '\t' || c == '\n' || c == '\r' || c == '\x0b' || c == '\x0c'

/-- Worker for `pySplitWS`: `acc` holds the (reversed) token being read. -/
def pySplitAux : List Char → List Char → List (List Char)
  | [], acc => if acc = [] then [] else [acc.reverse]
  | c :: cs, acc =>
    if pyIsSpace c then
      (if acc = [] then [] else [acc.reverse]) ++ pySplitAux cs []
    else pySplitAux cs (c :: acc)

/-- Python `s.split()` with no argument: split on runs of whitespace,
yielding no empty tokens. -/
def pySplitWS (s : List Char) : List (List Char) :=
  pySplitAux s []

/-- Python `s.rstrip()`: drop trailing whitespace. -/
def pyRstrip (s : List Char) : List Char :=
  (s.reverse.dropWhile pyIsSpace).reverse

/-- Python `s.replace(x, '')`: remove every occurrence of the character. -/
def pyRemoveChar (x : Char) (s : List Char) : List Char :=
  s.filter (fun c => c != x)

/-- Python `s.count(x)` for a single character. -/
def pyCount (x : Char) (s : List Char) : Nat :=
  (s.filter (fun c => c == x)).length

/-- The character class `[A-Z0-9]` of the pattern. -/
def isUpperDigit (c : Char) : Bool :=
  c.isUpper || c.isDigit

/-- The literal `UniRef` of the pattern. -/
def uniRefLit : List Char := ['U', 'n', 'i', 'R', 'e', 'f']

/-- One anchored attempt of `UniRef\d+_([A-Z0-9]+)` at the start of `s`,
returning the captured group.  Backtracking cannot help for this pattern:
`\d+` must stop exactly at the maximal digit run (shorter runs leave a digit
where `_` is required), and the capture `([A-Z0-9]+)` is final, hence maximal.
`\d` is modelled as the ASCII digits. -/
def uniRefCapture (s : List Char) : Option (List Char) :=
  if uniRefLit.isPrefixOf s then
    if (s.drop 6).takeWhile Char.isDigit = [] then none
    else
      if ((s.drop 6).dropWhile Char.isDigit).head? = some '_' then
        if (((s.drop 6).dropWhile Char.isDigit).tail).takeWhile isUpperDigit = [] then
          none
        else
          some ((((s.drop 6).dropWhile Char.isDigit).tail).takeWhile isUpperDigit)
      else none
  else none

/-- Model of `re.search`: try the pattern at offset 0, 1, 2, … and return the capture
of the leftmost match. -/
def reSearchUniRef : List Char → Option (List Char)
  | [] => none
  | c :: cs =>
    match uniRefCapture (c :: cs) with
    | some cap => some cap
    | none => reSearchUniRef cs

/-- The Python exceptions the translated code can raise. -/
inductive PyError where
  | indexError
  | keyError
  | valueError
deriving Repr, DecidableEq

/-- Decidable equality of results so that concrete runs can be checked by
`decide`. -/
instance exceptDecEq {ε α : Type} [DecidableEq ε] [DecidableEq α] :
    DecidableEq (Except ε α) := fun x y =>
  match x, y with
  | Except.ok a, Except.ok b =>
    if h : a = b then isTrue (by rw [h])
    else isFalse (by intro hh; cases hh; exact h rfl)
  | Except.ok _, Except.error _ => isFalse (by intro hh; cases hh)
  | Except.error _, Except.ok _ => isFalse (by intro hh; cases hh)
  | Except.error e, Except.error f =>
    if h : e = f then isTrue (by rw [h])
    else isFalse (by intro hh; cases hh; exact h rfl)

/-- The method `GPCRFastaParser._extract_uniref_id`: search the header for the UniRef
pattern and return the capture; otherwise fall back to
`header.split()[0].replace('>', '')`.  `header.split()` on an empty or
all-whitespace header is the empty list, so the `[0]` raises `IndexError`. -/
def extract_uniref_id (header : List Char) : Except PyError (List Char) :=
  match reSearchUniRef header with
  | some cap => Except.ok cap
  | none =>
    match pySplitWS header with
    | [] => Except.error PyError.indexError
    | t :: _ => Except.ok (pyRemoveChar '>' t)

/-- One raw FASTA record as produced by Biopython's `SimpleFastaParser`:
the title line (marker stripped, right-trimmed) and the concatenated body. -/
structure RawRecord where
  title : List Char
  body : List Char
deriving Repr, DecidableEq

/-- A line is a record marker when its first character is `>`
(Python `line[0] == ">"`). -/
def isMarkerLine (l : List Char) : Bool :=
  l.head? == some '>'

/-- The title of a marker line: `line[1:].rstrip()`. -/
def titleOfMarker (l : List Char) : List Char :=
  pyRstrip (l.drop 1)

/-- Body assembly of `SimpleFastaParser`:
`"".join(lines).replace(" ", "").replace("\r", "")` over the right-stripped
body lines. -/
def buildBody (ls : List (List Char)) : List Char :=
  pyRemoveChar '\r' (pyRemoveChar ' ' (ls.map pyRstrip).flatten)

/-- Main loop of `SimpleFastaParser` after the first marker has been found:
`title` is the pending title, `acc` the pending body lines in reverse. -/
def fastaMainLoop (title : List Char) (acc : List (List Char)) :
    List (List Char) → List RawRecord
  | [] => [⟨title, buildBody acc.reverse⟩]
  | l :: ls =>
    if isMarkerLine l then
      ⟨title, buildBody acc.reverse⟩ :: fastaMainLoop (titleOfMarker l) [] ls
    else
      fastaMainLoop title (l :: acc) ls

/-- The reader `SimpleFastaParser`: skip every line before the first marker line
(Biopython's comment: "Skip any text before the first record"), then run the
main loop; no marker line at all yields no records. -/
def simpleFastaParse : List (List Char) → List RawRecord
  | [] => []
  | l :: ls =>
    if isMarkerLine l then fastaMainLoop (titleOfMarker l) [] ls
    else simpleFastaParse ls

/-- The `FastaIterator` record id: the first whitespace-delimited word of the
title, or the empty string when the (right-stripped) title is empty. -/
def firstWord (title : List Char) : List Char :=
  match pySplitWS title with
  | [] => []
  | t :: _ => t

/-- One parsed sequence row, i.e. one dataframe row of
`GPCRFastaParser.parse`. -/
structure SequenceRecord where
  id : List Char
  uniref_id : List Char
  full_header : List Char
  sequence : List Char
  length : Nat
  gap_count : Nat
  gap_percentage : ℚ
deriving Repr, DecidableEq

/-- Round to the nearest integer, ties to even — CPython `round` semantics on
an exactly representable value.  `Rat.floor` is used rather than `⌊·⌋` so that
the definition evaluates inside the kernel. -/
def roundHalfEven (q : ℚ) : ℤ :=
  let f := q.floor
  let r := q - f
  if r < 1 / 2 then f
  else if 1 / 2 < r then f + 1
  else if f % 2 = 0 then f else f + 1

/-- Python `round(q, 2)`. -/
def pyRound2 (q : ℚ) : ℚ :=
  (roundHalfEven (q * 100) : ℚ) / 100

/-- The per-record work of the loop body of `GPCRFastaParser.parse`: extract
the identifier (which can raise `IndexError`), then compute length, gap count
and rounded gap percentage. -/
def enrich (r : RawRecord) : Except PyError SequenceRecord :=
  match extract_uniref_id r.title with
  | Except.error e => Except.error e
  | Except.ok uid =>
    Except.ok {
      id := firstWord r.title
      uniref_id := uid
      full_header := r.title
      sequence := r.body
      length := r.body.length
      gap_count := pyCount '-' r.body
      gap_percentage := pyRound2 (if 0 < r.body.length then
        ((pyCount '-' r.body : ℚ) / (r.body.length : ℚ)) * 100 else 0)
    }

/-- Sequential enrichment of the raw records, aborting at the first raised
exception, exactly as the Python `for record in SeqIO.parse(...)` loop does. -/
def mapEnrich : List RawRecord → Except PyError (List SequenceRecord)
  | [] => Except.ok []
  | r :: rs =>
    match enrich r with
    | Except.error e => Except.error e
    | Except.ok s =>
      match mapEnrich rs with
      | Except.error e => Except.error e
      | Except.ok ss => Except.ok (s :: ss)

/-- The method `GPCRFastaParser.parse`: read the raw records, enrich them, and build the
dataframe.  When no record was read, `pd.DataFrame([])` has no columns at
all, so the summary line `df['length'].mean()` printed before returning
raises `KeyError`. -/
def parse (src : List (List Char)) : Except PyError (List SequenceRecord) :=
  match mapEnrich (simpleFastaParse src) with
  | Except.error e => Except.error e
  | Except.ok records =>
    if records.length = 0 then Except.error PyError.keyError
    else Except.ok records

/-- The method `GPCRFastaParser.get_sequence_by_id`: first row whose
`uniref_id` column matches, returning only its `sequence` column.  On a frame
with no rows the column lookup `df['uniref_id']` raises `KeyError` before the
emptiness check is reached (the frame built from an empty list has no
columns, exactly as in `parse` and `get_statistics`); on a nonempty frame
with no matching row the explicit `len(result) == 0` check raises
`ValueError`. -/
def get_sequence_by_id (df : List SequenceRecord) (uid : List Char) :
    Except PyError (List Char) :=
  if df.length = 0 then Except.error PyError.keyError
  else
    match df.find? (fun r => r.uniref_id == uid) with
    | none => Except.error PyError.valueError
    | some r => Except.ok r.sequence

/-- The method `GPCRFastaParser.remove_gaps`: `sequence.replace('-', '')`. -/
def remove_gaps (s : List Char) : List Char :=
  pyRemoveChar '-' s

/-- The statistics record of `GPCRFastaParser.get_statistics`. -/
structure Statistics where
  total_sequences : Nat
  avg_length : ℚ
  min_length : Nat
  max_length : Nat
  avg_gap_percentage : ℚ
  sequences_with_gaps : Nat
deriving Repr, DecidableEq

/-- Pandas `series.min()` over the rows (only used on nonempty frames). -/
def seriesMin : List Nat → Nat
  | [] => 0
  | x :: xs => xs.foldl Nat.min x

/-- Pandas `series.max()` over the rows (only used on nonempty frames). -/
def seriesMax : List Nat → Nat
  | [] => 0
  | x :: xs => xs.foldl Nat.max x

/-- Pandas `series.mean()` of a numeric column. -/
def seriesMeanNat (l : List Nat) : ℚ :=
  (l.sum : ℚ) / (l.length : ℚ)

/-- Pandas `series.mean()` of a rational column. -/
def seriesMeanRat (l : List ℚ) : ℚ :=
  l.sum / (l.length : ℚ)

/-- The method `GPCRFastaParser.get_statistics`: on a frame with no rows the column
lookup `df['length']` raises `KeyError` (the frame built from an empty list
has no columns); otherwise the aggregates are computed columnwise. -/
def get_statistics (df : List SequenceRecord) : Except PyError Statistics :=
  if df.length = 0 then Except.error PyError.keyError
  else Except.ok {
    total_sequences := df.length
    avg_length := seriesMeanNat (df.map (fun r => r.length))
    min_length := seriesMin (df.map (fun r => r.length))
    max_length := seriesMax (df.map (fun r => r.length))
    avg_gap_percentage := seriesMeanRat (df.map (fun r => r.gap_percentage))
    sequences_with_gaps := df.countP (fun r => 0 < r.gap_count)
  }

/-- The lookup operation as the specification words it: the first record in
file order whose secondary identifier equals the given one, a not-found error
otherwise.  Stated from the specification to compare with
`get_sequence_by_id`, which the specification claims returns the full
record. -/
def find_by_secondary_id (df : List SequenceRecord) (uid : List Char) :
    Except PyError SequenceRecord :=
  match df with
  | [] => Except.error PyError.valueError
  | r :: rest =>
    if r.uniref_id = uid then Except.ok r else find_by_secondary_id rest uid

/-- A concrete two-line source used to exercise the parser on a concrete
run: one marker line and one body line with a single gap. -/
def exampleSrc : List (List Char) :=
  [">UniRef1_AB desc".toList, "MK-KVGT".toList]

/-- The record `parse` produces for `exampleSrc`; its gap percentage is
`round(100 / 7, 2) = 14.29`. -/
def exampleRec : SequenceRecord :=
  ⟨"UniRef1_AB".toList, "AB".toList, "UniRef1_AB desc".toList,
    "MK-KVGT".toList, 7, 1, 1429 / 100⟩

/-- The statistics `get_statistics` produces for the one-record collection
`[exampleRec]`. -/
def exampleStats : Statistics :=
  ⟨1, 7, 7, 7, 1429 / 100, 1⟩

/-- The regex matches at offset `i` of the header, worded as the
specification reads: at `i` the literal `UniRef`, then at least one decimal
digit, then an underscore, then at least one uppercase letter or digit. -/
def specMatchAt (h : List Char) (i : Nat) : Prop :=
  ∃ d c r, (∀ x ∈ d, x.isDigit = true) ∧ d ≠ [] ∧ isUpperDigit c = true ∧
    h.drop i = uniRefLit ++ d ++ '_' :: c :: r

/-- The captured group of the match at offset `i`: the maximal run of
uppercase letters and digits right after the underscore. -/
def specCaptureAt (h : List Char) (i : Nat) (cap : List Char) : Prop :=
  ∃ d r, (∀ x ∈ d, x.isDigit = true) ∧ d ≠ [] ∧ cap ≠ [] ∧
    (∀ x ∈ cap, isUpperDigit x = true) ∧
    (∀ c, r.head? = some c → isUpperDigit c = false) ∧
    h.drop i = uniRefLit ++ d ++ '_' :: (cap ++ r)

/-- The computable `Rat.floor` agrees with the `Int.floor` of the order
structure; proofs below use the `⌊·⌋` API. -/
theorem ratFloor_eq (q : ℚ) : q.floor = ⌊q⌋ := by
  rw [Rat.floor_def', Rat.floor_def]

theorem takeWhile_run {p : Char → Bool} {d t : List Char}
    (hd : ∀ x ∈ d, p x = true) (ht : ∀ c, t.head? = some c → p c = false) :
    (d ++ t).takeWhile p = d := by
  induction d with
  | nil =>
    cases t with
    | nil => rfl
    | cons c cs => rw [List.nil_append, List.takeWhile_cons_of_neg (by simp [ht c rfl])]
  | cons x xs ih =>
    have hx : p x = true := hd x (List.mem_cons_self x xs)
    rw [List.cons_append, List.takeWhile_cons_of_pos hx,
      ih (fun y hy => hd y (List.mem_cons_of_mem x hy))]

theorem dropWhile_run {p : Char → Bool} {d t : List Char}
    (hd : ∀ x ∈ d, p x = true) (ht : ∀ c, t.head? = some c → p c = false) :
    (d ++ t).dropWhile p = t := by
  induction d with
  | nil =>
    cases t with
    | nil => rfl
    | cons c cs => rw [List.nil_append, List.dropWhile_cons_of_neg (by simp [ht c rfl])]
  | cons x xs ih =>
    have hx : p x = true := hd x (List.mem_cons_self x xs)
    rw [List.cons_append, List.dropWhile_cons_of_pos hx,
      ih (fun y hy => hd y (List.mem_cons_of_mem x hy))]

theorem head?_dropWhile_false (p : Char → Bool) (l : List Char) :
    ∀ c, (l.dropWhile p).head? = some c → p c = false := by
  intro c hc
  have h := List.head?_dropWhile_not p l
  rw [hc] at h
  exact h

theorem pySplitAux_nil_iff (s : List Char) :
    ∀ acc, pySplitAux s acc = [] ↔ (acc = [] ∧ s.all pyIsSpace = true) := by
  induction s with
  | nil =>
    intro acc
    by_cases h : acc = [] <;> simp [pySplitAux, h]
  | cons c cs ih =>
    intro acc
    by_cases hc : pyIsSpace c
    · by_cases h : acc = [] <;> simp [pySplitAux, hc, h, ih, List.all_cons]
    · have hstep := ih (c :: acc)
      simp [pySplitAux, hc, hstep, List.all_cons]

theorem pySplitWS_nil_iff (s : List Char) :
    pySplitWS s = [] ↔ s.all pyIsSpace = true := by
  simp [pySplitWS, pySplitAux_nil_iff]

theorem uniRefCapture_some_iff (s cap : List Char) :
    uniRefCapture s = some cap ↔
      ∃ d r, (∀ x ∈ d, x.isDigit = true) ∧ d ≠ [] ∧ cap ≠ [] ∧
        (∀ x ∈ cap, isUpperDigit x = true) ∧
        (∀ c, r.head? = some c → isUpperDigit c = false) ∧
        s = uniRefLit ++ d ++ '_' :: (cap ++ r) := by
  constructor
  · intro hsome
    rw [uniRefCapture] at hsome
    by_cases hpre : uniRefLit.isPrefixOf s
    · rw [if_pos hpre] at hsome
      obtain ⟨t, ht⟩ : ∃ t, s = uniRefLit ++ t := by
        obtain ⟨t, ht⟩ := List.isPrefixOf_iff_prefix.mp hpre
        exact ⟨t, ht.symm⟩
      have hdrop : s.drop 6 = t := by rw [ht]; exact List.drop_left uniRefLit t
      by_cases hdnil : (s.drop 6).takeWhile Char.isDigit = []
      · rw [if_pos hdnil] at hsome; cases hsome
      · rw [if_neg hdnil] at hsome
        cases hmatch : (s.drop 6).dropWhile Char.isDigit with
        | nil => rw [hmatch] at hsome; cases hsome
        | cons u r2 =>
          rw [hmatch] at hsome
          by_cases hu : u = '_'
          · subst hu
            rw [if_pos (by rfl)] at hsome
            by_cases hcnil : (('_' :: r2).tail).takeWhile isUpperDigit = []
            · rw [if_pos hcnil] at hsome; cases hsome
            · rw [if_neg hcnil] at hsome
              have hcap : cap = r2.takeWhile isUpperDigit := by
                cases hsome; rfl
              refine ⟨(s.drop 6).takeWhile Char.isDigit, r2.dropWhile isUpperDigit,
                ?_, hdnil, ?_, ?_, ?_, ?_⟩
              · intro x hx; exact List.mem_takeWhile_imp hx
              · rw [hcap]; exact hcnil
              · intro x hx; rw [hcap] at hx; exact List.mem_takeWhile_imp hx
              · exact head?_dropWhile_false isUpperDigit r2
              · calc s = uniRefLit ++ t := ht
                  _ = uniRefLit ++ ((s.drop 6).takeWhile Char.isDigit ++
                        (s.drop 6).dropWhile Char.isDigit) := by
                      rw [List.takeWhile_append_dropWhile, hdrop]
                  _ = uniRefLit ++ ((s.drop 6).takeWhile Char.isDigit ++
                        '_' :: (cap ++ r2.dropWhile isUpperDigit)) := by
                      rw [hmatch, hcap, List.takeWhile_append_dropWhile]
                  _ = uniRefLit ++ (s.drop 6).takeWhile Char.isDigit ++
                        '_' :: (cap ++ r2.dropWhile isUpperDigit) := by
                      rw [List.append_assoc]
          · rw [if_neg (by simp [hu])] at hsome; cases hsome
    · rw [if_neg hpre] at hsome; cases hsome
  · rintro ⟨d, r, hd, hdne, hcapne, hcap, hr, rfl⟩
    have hpre : uniRefLit.isPrefixOf (uniRefLit ++ d ++ '_' :: (cap ++ r)) = true := by
      rw [ List.isPrefixOf_iff_prefix, List.append_assoc]
      exact ⟨d ++ '_' :: (cap ++ r), rfl⟩
    have hdrop : (uniRefLit ++ d ++ '_' :: (cap ++ r)).drop 6 = d ++ '_' :: (cap ++ r) := by
      rw [List.append_assoc]
      exact List.drop_left uniRefLit (d ++ '_' :: (cap ++ r))
    have htake : (d ++ '_' :: (cap ++ r)).takeWhile Char.isDigit = d :=
      takeWhile_run hd (by intro c hc; injection hc with hc; rw [← hc]; decide)
    have hdropw : (d ++ '_' :: (cap ++ r)).dropWhile Char.isDigit = '_' :: (cap ++ r) :=
      dropWhile_run hd (by intro c hc; injection hc with hc; rw [← hc]; decide)
    have htake2 : (cap ++ r).takeWhile isUpperDigit = cap :=
      takeWhile_run hcap hr
    rw [uniRefCapture, if_pos hpre, hdrop, htake, if_neg hdne, hdropw]
    rw [if_pos (by rfl)]
    simp only [List.tail_cons, htake2]
    rw [if_neg hcapne]

theorem uniRefCapture_isSome_iff (s : List Char) :
    (uniRefCapture s).isSome = true ↔ specMatchAt s 0 := by
  constructor
  · intro hs
    cases hcap : uniRefCapture s with
    | none => rw [hcap] at hs; cases hs
    | some cap =>
      obtain ⟨d, r, hd, hdne, hcapne, hcapall, hr, heq⟩ :=
        (uniRefCapture_some_iff s cap).mp hcap
      cases cap with
      | nil => exact absurd rfl hcapne
      | cons c0 cap2 =>
        exact ⟨d, c0, cap2 ++ r, hd, hdne, hcapall c0 (List.mem_cons_self c0 cap2),
          by rw [List.drop_zero, heq]; simp⟩
  · rintro ⟨d, c, r, hd, hdne, hc, heq⟩
    rw [List.drop_zero] at heq
    have htake : (d ++ '_' :: c :: r).takeWhile Char.isDigit = d :=
      takeWhile_run hd (by intro x hx; injection hx with hx; rw [← hx]; decide)
    have hdropw : (d ++ '_' :: c :: r).dropWhile Char.isDigit = '_' :: c :: r :=
      dropWhile_run hd (by intro x hx; injection hx with hx; rw [← hx]; decide)
    have hpre : uniRefLit.isPrefixOf s = true := by
      rw [ List.isPrefixOf_iff_prefix, heq, List.append_assoc]
      exact ⟨d ++ '_' :: c :: r, rfl⟩
    have hdrop : s.drop 6 = d ++ '_' :: c :: r := by
      rw [heq, List.append_assoc]
      exact List.drop_left uniRefLit (d ++ '_' :: c :: r)
    rw [uniRefCapture, if_pos hpre, hdrop, htake, if_neg hdne, hdropw]
    rw [if_pos (by rfl)]
    simp only [List.tail_cons, List.takeWhile_cons_of_pos hc]
    simp

theorem specMatchAt_cons (c : Char) (cs : List Char) (i : Nat) :
    specMatchAt (c :: cs) (i + 1) ↔ specMatchAt cs i := by
  unfold specMatchAt
  rw [List.drop_succ_cons]

theorem specCaptureAt_cons (c : Char) (cs : List Char) (i : Nat) (cap : List Char) :
    specCaptureAt (c :: cs) (i + 1) cap ↔ specCaptureAt cs i cap := by
  unfold specCaptureAt
  rw [List.drop_succ_cons]

theorem reSearchUniRef_none (h : List Char) (hno : ∀ i, ¬ specMatchAt h i) :
    reSearchUniRef h = none := by
  induction h with
  | nil => rfl
  | cons c cs ih =>
    cases hcap : uniRefCapture (c :: cs) with
    | some cap =>
      exact absurd ((uniRefCapture_isSome_iff _).mp (by rw [hcap]; rfl)) (hno 0)
    | none =>
      rw [reSearchUniRef, hcap]
      exact ih fun i => by
        have hi := hno (i + 1)
        rw [specMatchAt_cons] at hi
        exact hi

theorem reSearchUniRef_leftmost (h : List Char) :
    ∀ i cap, (∀ j, j < i → ¬ specMatchAt h j) → specCaptureAt h i cap →
      reSearchUniRef h = some cap := by
  induction h with
  | nil =>
    intro i cap _ hcapat
    obtain ⟨d, r, hd, hdne, hcne, hcap2, hr, heq⟩ := hcapat
    rw [List.drop_nil] at heq
    exact absurd (congrArg List.length heq) (by simp [uniRefLit])
  | cons c cs ih =>
    intro i cap hleft hcapat
    cases i with
    | zero =>
      have hsome : uniRefCapture (c :: cs) = some cap := by
        rw [uniRefCapture_some_iff]
        obtain ⟨d, r, hd, hdne, hcne, hcap2, hr, heq⟩ := hcapat
        rw [List.drop_zero] at heq
        exact ⟨d, r, hd, hdne, hcne, hcap2, hr, heq⟩
      rw [reSearchUniRef, hsome]
    | succ i2 =>
      have hnone : uniRefCapture (c :: cs) = none := by
        cases hcap0 : uniRefCapture (c :: cs) with
        | none => rfl
        | some cap0 =>
          exact absurd ((uniRefCapture_isSome_iff _).mp (by rw [hcap0]; rfl))
            (hleft 0 (Nat.succ_pos i2))
      rw [reSearchUniRef, hnone]
      exact ih i2 cap
        (fun j hj => by
          have hji := hleft (j + 1) (Nat.succ_lt_succ hj)
          rw [specMatchAt_cons] at hji
          exact hji)
        ((specCaptureAt_cons _ _ _ _).mp hcapat)

theorem reSearchUniRef_some_not_blank (h cap : List Char)
    (hs : reSearchUniRef h = some cap) : h.all pyIsSpace = false := by
  induction h with
  | nil => cases hs
  | cons c cs ih =>
    cases hcap : uniRefCapture (c :: cs) with
    | some cap0 =>
      obtain ⟨d, r, _, _, _, _, _, heq⟩ := (uniRefCapture_some_iff _ _).mp hcap
      have hc : c = 'U' := by
        have hhead := congrArg List.head? heq
        simpa [uniRefLit] using hhead
      subst hc
      simp [List.all_cons, (by decide : pyIsSpace 'U' = false)]
    | none =>
      rw [reSearchUniRef, hcap] at hs
      simp [List.all_cons, ih hs]

theorem extract_isSome_iff (h : List Char) :
    (extract_uniref_id h).toOption.isSome = !h.all pyIsSpace := by
  cases hs : reSearchUniRef h with
  | some cap =>
    rw [extract_uniref_id, hs]
    simp [Except.toOption, reSearchUniRef_some_not_blank h cap hs]
  | none =>
    cases hsp : pySplitWS h with
    | nil =>
      rw [extract_uniref_id, hs, hsp]
      simp [Except.toOption, (pySplitWS_nil_iff h).mp hsp]
    | cons t ts =>
      rw [extract_uniref_id, hs, hsp]
      have hne : h.all pyIsSpace = false := by
        cases hall : h.all pyIsSpace with
        | false => rfl
        | true =>
          rw [← pySplitWS_nil_iff] at hall
          rw [hsp] at hall
          cases hall
      simp [Except.toOption, hne]

theorem bne_eq_decide_ne (x y : Char) : (x != y) = decide (x ≠ y) := by
  by_cases hx : x = y
  · subst hx
    rw [bne_self_eq_false, decide_eq_false (by simp)]
  · rw [bne_iff_ne.mpr hx, decide_eq_true hx]

theorem filter_bne_eq_filter_decide (y : Char) (t : List Char) :
    t.filter (fun c => c != y) = t.filter (fun c => decide (c ≠ y)) := by
  induction t with
  | nil => rfl
  | cons x xs ih => rw [List.filter_cons, List.filter_cons, ih, bne_eq_decide_ne]

/-- C3 counterexample: identifier extraction on the empty header raises
`IndexError` — `header.split()` is empty, so the indexing `[0]` fails — hence
extraction is not total, contrary to the claim that it always returns a
non-empty string. -/
theorem C3_cex_extract_fails_on_empty :
    extract_uniref_id [] = Except.error PyError.indexError := by decide

/-- C3 amended: extraction succeeds exactly on headers containing at least
one non-whitespace character and raises `IndexError` on empty or
all-whitespace headers; moreover the result can be the empty string, e.g. on
the header consisting of a single marker character. -/
theorem C3_amended_extract_totality :
    (∀ h : List Char, (extract_uniref_id h).toOption.isSome = !h.all pyIsSpace) ∧
    extract_uniref_id ['>'] = Except.ok [] :=
  ⟨extract_isSome_iff, by decide⟩

/-- C4: extraction searches the whole header, not anchored at the start, for
the literal `UniRef` followed by one or more decimal digits, an underscore
and a maximal run of uppercase letters and digits; on the leftmost such match
it returns the captured run after the underscore, and the first-token
fallback runs only when no match exists at any offset of the header. -/
theorem C4_search_semantics (h : List Char) :
    (∀ i cap, (∀ j, j < i → ¬ specMatchAt h j) → specCaptureAt h i cap →
      extract_uniref_id h = Except.ok cap) ∧
    ((∀ i, ¬ specMatchAt h i) →
      extract_uniref_id h =
        match pySplitWS h with
        | [] => Except.error PyError.indexError
        | t :: _ => Except.ok (pyRemoveChar '>' t)) := by
  constructor
  · intro i cap hleft hcap
    rw [extract_uniref_id, reSearchUniRef_leftmost h i cap hleft hcap]
  · intro hno
    rw [extract_uniref_id, reSearchUniRef_none h hno]

/-- C4 witness: on the header `xUniRef10_ABz` the pattern matches at offset
1, the digits are `10`, and the maximal captured run is `AB` (stopped by the
lowercase `z`). -/
theorem C4_witness :
    extract_uniref_id ['x', 'U', 'n', 'i', 'R', 'e', 'f', '1', '0', '_', 'A', 'B', 'z'] =
      Except.ok ['A', 'B'] := by
  apply (C4_search_semantics _).1 1 ['A', 'B']
  · intro j hj
    have hj0 : j = 0 := by omega
    subst hj0
    rintro ⟨d, c, r, hd, hdne, hc, heq⟩
    rw [List.drop_zero] at heq
    have hhead : some 'x' = some 'U' := congrArg List.head? heq
    injection hhead with hx
    exact absurd hx (by decide)
  · exact ⟨['1', '0'], ['z'], by decide, by decide, by decide, by decide,
      by intro c hc; injection hc with hc; rw [← hc]; decide, by rfl⟩

/-- C5 counterexample: on the header `a>b c` (no UniRef pattern) the fallback
returns `ab` — every marker character of the first token is removed, not only
a leading one, so the claimed result `a>b` is wrong. -/
theorem C5_cex_inner_marker_removed :
    extract_uniref_id ['a', '>', 'b', ' ', 'c'] = Except.ok ['a', 'b'] ∧
      (['a', 'b'] : List Char) ≠ ['a', '>', 'b'] := by decide

/-- C5 amended: when no UniRef pattern occurs anywhere in the header, the
result is the first whitespace-delimited token with every occurrence of the
marker character removed (`replace('>', '')` removes them all, not only a
leading one). -/
theorem C5_amended_fallback_removes_all_markers :
    ∀ h t ts, (∀ i, ¬ specMatchAt h i) → pySplitWS h = t :: ts →
      extract_uniref_id h = Except.ok (t.filter (fun c => decide (c ≠ '>'))) := by
  intro h t ts hno hsp
  rw [extract_uniref_id, reSearchUniRef_none h hno, hsp]
  show Except.ok (pyRemoveChar '>' t) = _
  rw [show pyRemoveChar '>' t = t.filter (fun c => c != '>') from rfl,
    filter_bne_eq_filter_decide]

/-- C5 witness: the amended fallback applied to the header `a>b c`. -/
theorem C5_witness :
    extract_uniref_id ['a', '>', 'b', ' ', 'c'] = Except.ok ['a', 'b'] := by
  have hno : ∀ i, ¬ specMatchAt ['a', '>', 'b', ' ', 'c'] i := by
    rintro i ⟨d, c, r, hd, hdne, hc, heq⟩
    have hlen := congrArg List.length heq
    have hdlen : 1 ≤ d.length := by
      cases d with
      | nil => exact absurd rfl hdne
      | cons _ _ => simp
    simp [uniRefLit, List.length_drop] at hlen
    omega
  have hres := C5_amended_fallback_removes_all_markers ['a', '>', 'b', ' ', 'c']
    ['a', '>', 'b'] [['c']] hno (by decide)
  rw [hres]
  decide

theorem simpleFastaParse_skip (pre src : List (List Char))
    (hpre : ∀ l ∈ pre, isMarkerLine l = false) :
    simpleFastaParse (pre ++ src) = simpleFastaParse src := by
  induction pre with
  | nil => rfl
  | cons l ls ih =>
    rw [List.cons_append, simpleFastaParse,
      if_neg (by simp [hpre l (List.mem_cons_self l ls)])]
    exact ih fun x hx => hpre x (List.mem_cons_of_mem l hx)

theorem fastaMainLoop_titles (ls : List (List Char)) :
    ∀ title acc, (fastaMainLoop title acc ls).map (fun r => r.title) =
      title :: (ls.filter isMarkerLine).map titleOfMarker := by
  induction ls with
  | nil => intro title acc; rfl
  | cons l ls2 ih =>
    intro title acc
    by_cases hl : isMarkerLine l
    · rw [fastaMainLoop, if_pos hl, List.filter_cons_of_pos hl, List.map_cons,
        List.map_cons, ih]
    · rw [fastaMainLoop, if_neg hl, List.filter_cons_of_neg hl, ih]

theorem simpleFastaParse_titles (src : List (List Char)) :
    (simpleFastaParse src).map (fun r => r.title) =
      (src.filter isMarkerLine).map titleOfMarker := by
  induction src with
  | nil => rfl
  | cons l ls ih =>
    by_cases hl : isMarkerLine l
    · rw [simpleFastaParse, if_pos hl, List.filter_cons_of_pos hl, List.map_cons,
        fastaMainLoop_titles]
    · rw [simpleFastaParse, if_neg hl, List.filter_cons_of_neg hl, ih]

theorem enrich_ok_fields (x : RawRecord) (y : SequenceRecord)
    (hy : enrich x = Except.ok y) :
    y.full_header = x.title ∧ y.sequence = x.body ∧ y.length = x.body.length ∧
      y.gap_count = pyCount '-' x.body ∧
      y.gap_percentage = pyRound2 (if 0 < x.body.length then
        ((pyCount '-' x.body : ℚ) / (x.body.length : ℚ)) * 100 else 0) ∧
      extract_uniref_id x.title = Except.ok y.uniref_id := by
  cases hext : extract_uniref_id x.title with
  | error e =>
    exfalso
    rw [enrich, hext] at hy
    exact Except.noConfusion hy
  | ok uid =>
    rw [enrich, hext] at hy
    have hy2 : Except.ok ({
        id := firstWord x.title
        uniref_id := uid
        full_header := x.title
        sequence := x.body
        length := x.body.length
        gap_count := pyCount '-' x.body
        gap_percentage := pyRound2 (if 0 < x.body.length then
          ((pyCount '-' x.body : ℚ) / (x.body.length : ℚ)) * 100 else 0)
      } : SequenceRecord) = Except.ok y := hy
    injection hy2 with hy3
    subst hy3
    exact ⟨rfl, rfl, rfl, rfl, rfl, rfl⟩

theorem mapEnrich_ok_mem (l : List RawRecord) :
    ∀ l2, mapEnrich l = Except.ok l2 → ∀ y ∈ l2, ∃ x ∈ l, enrich x = Except.ok y := by
  induction l with
  | nil =>
    intro l2 h y hy
    have h2 : (Except.ok [] : Except PyError (List SequenceRecord)) = Except.ok l2 := h
    injection h2 with h3
    subst h3
    cases hy
  | cons r rs ih =>
    intro l2 h y hy
    cases her : enrich r with
    | error e =>
      rw [mapEnrich, her] at h
      exact Except.noConfusion h
    | ok s =>
      cases hrs : mapEnrich rs with
      | error e =>
        rw [mapEnrich, her, hrs] at h
        exact Except.noConfusion h
      | ok ss =>
        rw [mapEnrich, her, hrs] at h
        have h2 : (Except.ok (s :: ss) : Except PyError (List SequenceRecord)) =
            Except.ok l2 := h
        injection h2 with h3
        subst h3
        rcases List.mem_cons.mp hy with rfl | hy2
        · exact ⟨r, List.mem_cons_self r rs, her⟩
        · obtain ⟨x, hx, hex⟩ := ih ss hrs y hy2
          exact ⟨x, List.mem_cons_of_mem r hx, hex⟩

theorem mapEnrich_ok_of_titles (l : List RawRecord)
    (hall : ∀ x ∈ l, (extract_uniref_id x.title).toOption.isSome = true) :
    ∃ l2, mapEnrich l = Except.ok l2 ∧
      l2.map (fun y => y.full_header) = l.map (fun x => x.title) ∧
      l2.length = l.length := by
  induction l with
  | nil => exact ⟨[], rfl, rfl, rfl⟩
  | cons r rs ih =>
    obtain ⟨l2, hl2, hmap, hlen⟩ := ih fun x hx => hall x (List.mem_cons_of_mem r hx)
    have hr := hall r (List.mem_cons_self r rs)
    cases her : enrich r with
    | error e =>
      exfalso
      cases hext : extract_uniref_id r.title with
      | error e2 =>
        rw [hext] at hr
        exact Bool.noConfusion hr
      | ok uid =>
        rw [enrich, hext] at her
        exact Except.noConfusion her
    | ok s =>
      refine ⟨s :: l2, ?_, ?_, ?_⟩
      · rw [mapEnrich, her, hl2]
      · obtain ⟨hfh, -⟩ := enrich_ok_fields r s her
        rw [List.map_cons, List.map_cons, hfh, hmap]
      · rw [List.length_cons, List.length_cons, hlen]

theorem parse_ok_inv (src : List (List Char)) (records : List SequenceRecord)
    (hp : parse src = Except.ok records) :
    mapEnrich (simpleFastaParse src) = Except.ok records ∧ records.length ≠ 0 := by
  cases hme : mapEnrich (simpleFastaParse src) with
  | error e =>
    exfalso
    rw [parse, hme] at hp
    exact Except.noConfusion hp
  | ok l2 =>
    rw [parse, hme] at hp
    have hp2 : (if l2.length = 0 then Except.error PyError.keyError
        else Except.ok l2) = Except.ok records := hp
    by_cases hl : l2.length = 0
    · rw [if_pos hl] at hp2
      exact Except.noConfusion hp2
    · rw [if_neg hl] at hp2
      injection hp2 with hp3
      subst hp3
      exact ⟨rfl, hl⟩

/-- C2 counterexample: a source whose first line is non-blank text that is
not a marker line parses without any error; the junk line is silently skipped
and the remaining record is returned. -/
theorem C2_cex_junk_skipped :
    (parse ["JUNK".toList, ">UniRef1_AB desc".toList, "MK-KVGT".toList]).toOption.map
        (fun rs => rs.map (fun r => (r.full_header, r.sequence))) =
      some [("UniRef1_AB desc".toList, "MK-KVGT".toList)] := by decide

/-- C2 amended: any lines (blank or not) before the first marker line are
silently skipped; parsing a source with such a prefix gives the same result
as parsing without it, with no `ParseError` signalled. -/
theorem C2_amended_prefix_silently_skipped (pre src : List (List Char))
    (hpre : ∀ l ∈ pre, isMarkerLine l = false) :
    parse (pre ++ src) = parse src := by
  rw [parse, parse, simpleFastaParse_skip pre src hpre]

/-- C2 witness: the junk line `JUNK` before the first marker changes nothing. -/
theorem C2_witness :
    parse (["JUNK".toList] ++ [">UniRef1_AB desc".toList, "MK-KVGT".toList]) =
      parse [">UniRef1_AB desc".toList, "MK-KVGT".toList] :=
  C2_amended_prefix_silently_skipped ["JUNK".toList]
    [">UniRef1_AB desc".toList, "MK-KVGT".toList] (by decide)

/-- C9 counterexample: a source with no marker lines does not yield an empty
collection — `parse` raises `KeyError` because the summary printing looks up
the `length` column of the column-free empty frame; and the well-formed
source consisting of the bare marker line `>` raises `IndexError` in
identifier extraction instead of yielding one record. -/
theorem C9_cex_empty_source_errors :
    parse [] = Except.error PyError.keyError ∧
      parse [['>']] = Except.error PyError.indexError := by decide

/-- C9 amended: if a source has at least one marker line and every marker
line's header keeps a non-whitespace character, parsing succeeds with exactly
one record per marker line, in marker order (the i-th record's header is the
i-th marker line with the marker stripped and right-trimmed); a source with
no marker lines raises an error instead of yielding an empty collection. -/
theorem C9_amended_marker_count_order (src : List (List Char))
    (hmk : (src.filter isMarkerLine).length ≠ 0)
    (hhd : ∀ l ∈ src, isMarkerLine l = true →
      (titleOfMarker l).all pyIsSpace = false) :
    ∃ records, parse src = Except.ok records ∧
      records.map (fun r => r.full_header) =
        (src.filter isMarkerLine).map titleOfMarker ∧
      records.length = (src.filter isMarkerLine).length := by
  have htitles := simpleFastaParse_titles src
  have hall : ∀ x ∈ simpleFastaParse src,
      (extract_uniref_id x.title).toOption.isSome = true := by
    intro x hx
    rw [extract_isSome_iff]
    have hmem : x.title ∈ (src.filter isMarkerLine).map titleOfMarker := by
      rw [← htitles]
      exact List.mem_map_of_mem _ hx
    obtain ⟨l, hl, hlt⟩ := List.mem_map.mp hmem
    have hl2 := List.mem_filter.mp hl
    rw [← hlt, hhd l hl2.1 hl2.2]
    rfl
  obtain ⟨l2, hl2, hmap, hlen⟩ := mapEnrich_ok_of_titles (simpleFastaParse src) hall
  have hlen2 : l2.length = (src.filter isMarkerLine).length := by
    rw [hlen]
    have hc := congrArg List.length htitles
    simpa using hc
  refine ⟨l2, ?_, ?_, hlen2⟩
  · rw [parse, hl2]
    show (if l2.length = 0 then Except.error PyError.keyError else Except.ok l2) =
      Except.ok l2
    rw [if_neg (by rw [hlen2]; exact hmk)]
  · rw [hmap, htitles]

/-- C9 witness: the two-line example source has one marker line and parses to
one record. -/
theorem C9_witness :
    (parse [">UniRef1_AB desc".toList, "MK-KVGT".toList]).toOption.isSome = true := by
  obtain ⟨records, hrec, -, -⟩ :=
    C9_amended_marker_count_order [">UniRef1_AB desc".toList, "MK-KVGT".toList]
      (by decide) (by decide)
  rw [hrec]
  rfl

theorem roundHalfEven_nonneg (q : ℚ) (hq : 0 ≤ q) : 0 ≤ roundHalfEven q := by
  have hf : (0 : ℤ) ≤ ⌊q⌋ := Int.floor_nonneg.mpr hq
  simp only [roundHalfEven, ratFloor_eq]
  by_cases h1 : q - (⌊q⌋ : ℚ) < 1 / 2
  · rw [if_pos h1]; exact hf
  · rw [if_neg h1]
    by_cases h2 : (1 : ℚ) / 2 < q - (⌊q⌋ : ℚ)
    · rw [if_pos h2]; omega
    · rw [if_neg h2]
      by_cases h3 : ⌊q⌋ % 2 = 0
      · rw [if_pos h3]; exact hf
      · rw [if_neg h3]; omega

theorem roundHalfEven_le (q : ℚ) (B : ℤ) (hq : q ≤ (B : ℚ)) : roundHalfEven q ≤ B := by
  have hfB : ⌊q⌋ ≤ B := by
    have hm := Int.floor_le_floor hq
    rwa [Int.floor_intCast] at hm
  simp only [roundHalfEven, ratFloor_eq]
  by_cases h1 : q - (⌊q⌋ : ℚ) < 1 / 2
  · rw [if_pos h1]; exact hfB
  · rw [if_neg h1]
    have hlt : ⌊q⌋ < B := by
      rcases lt_or_eq_of_le hfB with h | h
      · exact h
      · exfalso
        push_neg at h1
        rw [h] at h1
        linarith
    by_cases h2 : (1 : ℚ) / 2 < q - (⌊q⌋ : ℚ)
    · rw [if_pos h2]; omega
    · rw [if_neg h2]
      by_cases h3 : ⌊q⌋ % 2 = 0
      · rw [if_pos h3]; omega
      · rw [if_neg h3]; omega

theorem pyRound2_nonneg (q : ℚ) (hq : 0 ≤ q) : 0 ≤ pyRound2 q := by
  rw [pyRound2]
  have h := roundHalfEven_nonneg (q * 100) (by positivity)
  have h2 : (0 : ℚ) ≤ (roundHalfEven (q * 100) : ℚ) := by exact_mod_cast h
  positivity

theorem pyRound2_le_hundred (q : ℚ) (hq : q ≤ 100) : pyRound2 q ≤ 100 := by
  rw [pyRound2]
  have h1 : q * 100 ≤ ((10000 : ℤ) : ℚ) := by push_cast; linarith
  have h2 := roundHalfEven_le (q * 100) 10000 h1
  rw [div_le_iff₀ (by norm_num : (0 : ℚ) < 100)]
  calc ((roundHalfEven (q * 100) : ℤ) : ℚ) ≤ ((10000 : ℤ) : ℚ) := by exact_mod_cast h2
    _ = 100 * 100 := by norm_num

theorem pyRound2_zero : pyRound2 0 = 0 := by
  rw [pyRound2]
  have h0 : roundHalfEven (0 * 100) = 0 := by
    simp only [roundHalfEven, ratFloor_eq]
    norm_num
  rw [h0]
  norm_num

theorem remove_gaps_not_mem (s : List Char) : '-' ∉ remove_gaps s := by
  intro hm
  have hp := List.of_mem_filter hm
  simp at hp

theorem filter_gap_split (s : List Char) :
    (s.filter (fun c => c != '-')).length + (s.filter (fun c => c == '-')).length
      = s.length := by
  induction s with
  | nil => rfl
  | cons c cs ih =>
    rw [List.filter_cons, List.filter_cons]
    by_cases hc : c = '-'
    · subst hc
      rw [if_neg (by simp), if_pos (by simp), List.length_cons, List.length_cons]
      omega
    · rw [if_pos (bne_iff_ne.mpr hc), if_neg (by simp [hc]), List.length_cons,
        List.length_cons]
      omega

theorem remove_gaps_length (s : List Char) :
    (remove_gaps s).length = s.length - pyCount '-' s := by
  have h := filter_gap_split s
  rw [remove_gaps, pyRemoveChar, pyCount]
  omega

/-- C8: stripping gaps removes every `-`, keeps the other characters in order
(the result is a sublist), and shortens the sequence by exactly the gap
count; consequently, for every record of a successful parse, the stripped
sequence has length `r.length - r.gap_count`. -/
theorem C8_strip_gaps_roundtrip :
    (∀ s : List Char, '-' ∉ remove_gaps s ∧
      (remove_gaps s).length = s.length - pyCount '-' s ∧
      List.Sublist (remove_gaps s) s) ∧
    (∀ src records, parse src = Except.ok records → ∀ r ∈ records,
      (remove_gaps r.sequence).length = r.length - r.gap_count) := by
  constructor
  · intro s
    exact ⟨remove_gaps_not_mem s, remove_gaps_length s, List.filter_sublist s⟩
  · intro src records hp r hr
    obtain ⟨hme, -⟩ := parse_ok_inv src records hp
    obtain ⟨x, -, hex⟩ := mapEnrich_ok_mem (simpleFastaParse src) records hme r hr
    obtain ⟨-, hseq, hlen, hgap, -, -⟩ := enrich_ok_fields x r hex
    rw [hseq, hlen, hgap]
    exact remove_gaps_length x.body

theorem parse_exampleSrc : parse exampleSrc = Except.ok [exampleRec] := by
  have hraw : simpleFastaParse exampleSrc =
      [⟨"UniRef1_AB desc".toList, "MK-KVGT".toList⟩] := by decide
  have hext : extract_uniref_id "UniRef1_AB desc".toList = Except.ok "AB".toList := by
    decide
  rw [parse, hraw]
  simp only [mapEnrich, enrich, hext, List.length_cons, List.length_nil]
  rw [if_neg (by omega)]
  simp only [exampleRec, Except.ok.injEq, List.cons.injEq, and_true, true_and,
    SequenceRecord.mk.injEq]
  refine ⟨by decide, by decide, by decide, ?_⟩
  rw [show pyCount '-' "MK-KVGT".toList = 1 from by decide,
    show ("MK-KVGT".toList).length = 7 from by decide]
  norm_num [pyRound2, roundHalfEven, ratFloor_eq]

/-- C7: every record of a successful parse stores
`round(100 * gap_count / length, 2)` (0 for the empty sequence) as its gap
percentage, which therefore lies in `[0, 100]` and is 0 whenever the record
has no gaps. -/
theorem C7_gap_percentage_invariant (src : List (List Char))
    (records : List SequenceRecord) (hp : parse src = Except.ok records) :
    ∀ r ∈ records,
      r.gap_percentage = (if 0 < r.length then
        pyRound2 (100 * (r.gap_count : ℚ) / (r.length : ℚ)) else 0) ∧
      0 ≤ r.gap_percentage ∧ r.gap_percentage ≤ 100 ∧
      (r.gap_count = 0 → r.gap_percentage = 0) := by
  intro r hr
  obtain ⟨hme, -⟩ := parse_ok_inv src records hp
  obtain ⟨x, -, hex⟩ := mapEnrich_ok_mem (simpleFastaParse src) records hme r hr
  obtain ⟨-, -, hlen, hgap, hpct, -⟩ := enrich_ok_fields x r hex
  have hgl : r.gap_count ≤ r.length := by
    rw [hgap, hlen, pyCount]
    exact List.length_filter_le _ _
  by_cases h0 : 0 < x.body.length
  · have h0r : 0 < r.length := by rw [hlen]; exact h0
    have hlq : (0 : ℚ) < (r.length : ℚ) := by exact_mod_cast h0r
    have hval : r.gap_percentage =
        pyRound2 ((r.gap_count : ℚ) / (r.length : ℚ) * 100) := by
      rw [hpct, if_pos h0, ← hgap, ← hlen]
    have hfrac : (r.gap_count : ℚ) / (r.length : ℚ) ≤ 1 :=
      (div_le_one hlq).mpr (by exact_mod_cast hgl)
    have harg0 : (0 : ℚ) ≤ (r.gap_count : ℚ) / (r.length : ℚ) * 100 := by positivity
    have harg100 : (r.gap_count : ℚ) / (r.length : ℚ) * 100 ≤ 100 := by nlinarith
    refine ⟨?_, ?_, ?_, ?_⟩
    · rw [if_pos h0r, hval]
      congr 1
      ring
    · rw [hval]
      exact pyRound2_nonneg _ harg0
    · rw [hval]
      exact pyRound2_le_hundred _ harg100
    · intro hg
      rw [hval, hg]
      have hz : (((0 : ℕ) : ℚ) / (r.length : ℚ)) * 100 = 0 := by norm_num
      rw [hz, pyRound2_zero]
  · have hval0 : r.gap_percentage = 0 := by
      rw [hpct, if_neg h0, pyRound2_zero]
    have h0r : ¬ 0 < r.length := by rw [hlen]; exact h0
    refine ⟨?_, ?_, ?_, fun _ => hval0⟩
    · rw [hval0, if_neg h0r]
    · rw [hval0]
    · rw [hval0]; norm_num

/-- C7 witness: the record parsed from the example source, whose gap
percentage is 14.29. -/
theorem C7_witness :
    exampleRec.gap_percentage = (if 0 < exampleRec.length then
      pyRound2 (100 * (exampleRec.gap_count : ℚ) / (exampleRec.length : ℚ)) else 0) ∧
    0 ≤ exampleRec.gap_percentage ∧ exampleRec.gap_percentage ≤ 100 ∧
    (exampleRec.gap_count = 0 → exampleRec.gap_percentage = 0) :=
  C7_gap_percentage_invariant exampleSrc [exampleRec] parse_exampleSrc exampleRec
    (List.mem_cons_self _ _)

/-- C8 witness: the record parsed from the example source loses exactly its
one gap character when stripped. -/
theorem C8_witness :
    '-' ∉ remove_gaps exampleRec.sequence ∧
    (remove_gaps exampleRec.sequence).length = exampleRec.length - exampleRec.gap_count :=
  ⟨(C8_strip_gaps_roundtrip.1 exampleRec.sequence).1,
    C8_strip_gaps_roundtrip.2 exampleSrc [exampleRec] parse_exampleSrc exampleRec
      (List.mem_cons_self _ _)⟩

theorem foldl_min_le_start (xs : List Nat) : ∀ x, xs.foldl Nat.min x ≤ x := by
  induction xs with
  | nil => intro x; exact Nat.le_refl x
  | cons a as ih =>
    intro x
    calc (a :: as).foldl Nat.min x = as.foldl Nat.min (Nat.min x a) := rfl
      _ ≤ Nat.min x a := ih _
      _ ≤ x := Nat.min_le_left x a

theorem foldl_min_le_mem (xs : List Nat) : ∀ x y, y ∈ xs → xs.foldl Nat.min x ≤ y := by
  induction xs with
  | nil => intro x y hy; cases hy
  | cons a as ih =>
    intro x y hy
    rcases List.mem_cons.mp hy with rfl | hy2
    · calc (y :: as).foldl Nat.min x = as.foldl Nat.min (Nat.min x y) := rfl
        _ ≤ Nat.min x y := foldl_min_le_start as _
        _ ≤ y := Nat.min_le_right x y
    · exact ih (Nat.min x a) y hy2

theorem seriesMin_le_mem (l : List Nat) (y : Nat) (hy : y ∈ l) : seriesMin l ≤ y := by
  cases l with
  | nil => cases hy
  | cons x xs =>
    rcases List.mem_cons.mp hy with rfl | hy2
    · exact foldl_min_le_start xs y
    · exact foldl_min_le_mem xs x y hy2

theorem start_le_foldl_max (xs : List Nat) : ∀ x, x ≤ xs.foldl Nat.max x := by
  induction xs with
  | nil => intro x; exact Nat.le_refl x
  | cons a as ih =>
    intro x
    calc x ≤ Nat.max x a := Nat.le_max_left x a
      _ ≤ as.foldl Nat.max (Nat.max x a) := ih _
      _ = (a :: as).foldl Nat.max x := rfl

theorem mem_le_foldl_max (xs : List Nat) : ∀ x y, y ∈ xs → y ≤ xs.foldl Nat.max x := by
  induction xs with
  | nil => intro x y hy; cases hy
  | cons a as ih =>
    intro x y hy
    rcases List.mem_cons.mp hy with rfl | hy2
    · calc y ≤ Nat.max x y := Nat.le_max_right x y
        _ ≤ as.foldl Nat.max (Nat.max x y) := start_le_foldl_max as _
        _ = (y :: as).foldl Nat.max x := rfl
    · exact ih (Nat.max x a) y hy2

theorem mem_le_seriesMax (l : List Nat) (y : Nat) (hy : y ∈ l) : y ≤ seriesMax l := by
  cases l with
  | nil => cases hy
  | cons x xs =>
    rcases List.mem_cons.mp hy with rfl | hy2
    · exact start_le_foldl_max xs y
    · exact mem_le_foldl_max xs x y hy2

theorem length_mul_le_sum (l : List Nat) (m : Nat) (h : ∀ y ∈ l, m ≤ y) :
    l.length * m ≤ l.sum := by
  induction l with
  | nil => simp
  | cons x xs ih =>
    rw [List.length_cons, List.sum_cons, Nat.succ_mul]
    have hxs := ih fun y hy => h y (List.mem_cons_of_mem x hy)
    have hx := h x (List.mem_cons_self x xs)
    omega

theorem sum_le_length_mul (l : List Nat) (m : Nat) (h : ∀ y ∈ l, y ≤ m) :
    l.sum ≤ l.length * m := by
  induction l with
  | nil => simp
  | cons x xs ih =>
    rw [List.length_cons, List.sum_cons, Nat.succ_mul]
    have hxs := ih fun y hy => h y (List.mem_cons_of_mem x hy)
    have hx := h x (List.mem_cons_self x xs)
    omega

/-- C1: requesting aggregate statistics on the empty collection raises an
error (the dataframe built from an empty list has no columns, so the
`df['length']` lookup fails) instead of returning a statistics record with
degenerate NaN or zero values. -/
theorem C1_empty_statistics_error :
    get_statistics [] = Except.error PyError.keyError := by decide

/-- C6 counterexample: `get_sequence_by_id` returns only the sequence field,
not the full record claimed by the specification: two one-record collections
whose records differ in the header field give identical results, while the
first matching records (computed by the specification lookup) differ. -/
theorem C6_cex_sequence_only :
    get_sequence_by_id [⟨"a".toList, "X".toList, "h1".toList, "SEQ".toList, 3, 0, 0⟩]
        "X".toList = Except.ok "SEQ".toList ∧
    get_sequence_by_id [⟨"b".toList, "X".toList, "h2".toList, "SEQ".toList, 3, 0, 0⟩]
        "X".toList = Except.ok "SEQ".toList ∧
    (find_by_secondary_id [⟨"a".toList, "X".toList, "h1".toList, "SEQ".toList, 3, 0, 0⟩]
        "X".toList).map (fun r => r.full_header) = Except.ok "h1".toList ∧
    (find_by_secondary_id [⟨"b".toList, "X".toList, "h2".toList, "SEQ".toList, 3, 0, 0⟩]
        "X".toList).map (fun r => r.full_header) = Except.ok "h2".toList ∧
    ("h1".toList : List Char) ≠ "h2".toList := by
  refine ⟨by decide, by decide, ?_, ?_, by decide⟩ <;> rfl

theorem find?_sequence_eq_spec (df : List SequenceRecord) (uid : List Char) :
    (match df.find? (fun r => r.uniref_id == uid) with
      | none => (Except.error PyError.valueError : Except PyError (List Char))
      | some r => Except.ok r.sequence) =
      (find_by_secondary_id df uid).map (fun r => r.sequence) := by
  induction df with
  | nil => rfl
  | cons r rest ih =>
    by_cases hr : r.uniref_id = uid
    · have hb : (r.uniref_id == uid) = true := beq_iff_eq.mpr hr
      have hfind : List.find? (fun s => s.uniref_id == uid) (r :: rest) = some r := by
        simp [List.find?_cons, hb]
      rw [hfind, find_by_secondary_id, if_pos hr]
      rfl
    · have hb : (r.uniref_id == uid) = false := by simp [hr]
      have hfind : List.find? (fun s => s.uniref_id == uid) (r :: rest) =
          List.find? (fun s => s.uniref_id == uid) rest := by
        simp [List.find?_cons, hb]
      rw [hfind, find_by_secondary_id, if_neg hr, ih]

/-- C6 amended: on a nonempty collection, `get_sequence_by_id` behaves like
the specification lookup followed by projection to the sequence field — the
sequence of the first record in file order whose secondary identifier
matches, `ValueError` when none matches; on the empty collection the
`uniref_id` column lookup on the column-free empty frame raises `KeyError`
before the match is even attempted. -/
theorem C6_amended_sequence_projection :
    (∀ df uid, df ≠ [] → get_sequence_by_id df uid =
      (find_by_secondary_id df uid).map (fun r => r.sequence)) ∧
    (∀ uid, get_sequence_by_id [] uid = Except.error PyError.keyError) := by
  constructor
  · intro df uid hne
    rw [get_sequence_by_id, if_neg (fun h => hne (List.length_eq_zero.mp h))]
    exact find?_sequence_eq_spec df uid
  · intro uid
    rfl

/-- C6 witness: the amended projection equation at a concrete one-record
collection whose identifier matches. -/
theorem C6_witness :
    get_sequence_by_id
        [⟨"a".toList, "X".toList, "h1".toList, "SEQ".toList, 3, 0, 0⟩] "X".toList =
      (find_by_secondary_id
        [⟨"a".toList, "X".toList, "h1".toList, "SEQ".toList, 3, 0, 0⟩]
        "X".toList).map (fun r => r.sequence) :=
  C6_amended_sequence_projection.1
    [⟨"a".toList, "X".toList, "h1".toList, "SEQ".toList, 3, 0, 0⟩] "X".toList
    (by decide)

/-- C10: on a nonempty collection the statistics satisfy
`min_length ≤ avg_length ≤ max_length`, the with-gaps count is at most the
total, the total is the number of records, and the with-gaps count is the
number of records with a strictly positive gap count. -/
theorem C10_stats_invariants (df : List SequenceRecord) (stats : Statistics)
    (hs : get_statistics df = Except.ok stats) :
    (stats.min_length : ℚ) ≤ stats.avg_length ∧
    stats.avg_length ≤ (stats.max_length : ℚ) ∧
    stats.sequences_with_gaps ≤ stats.total_sequences ∧
    stats.total_sequences = df.length ∧
    stats.sequences_with_gaps = (df.filter (fun r => 0 < r.gap_count)).length := by
  rw [get_statistics] at hs
  by_cases hd : df.length = 0
  · rw [if_pos hd] at hs
    exact absurd hs (by simp)
  · rw [if_neg hd] at hs
    injection hs with hs2
    subst hs2
    have hL : (df.map fun r => r.length).length = df.length := List.length_map df _
    have hpos : (0 : ℚ) < ((df.map fun r => r.length).length : ℚ) := by
      rw [hL]
      exact_mod_cast Nat.pos_of_ne_zero hd
    refine ⟨?_, ?_, ?_, rfl, ?_⟩
    · show (seriesMin (df.map fun r => r.length) : ℚ) ≤
        seriesMeanNat (df.map fun r => r.length)
      rw [seriesMeanNat, le_div_iff₀ hpos]
      have hnat := length_mul_le_sum (df.map fun r => r.length)
        (seriesMin (df.map fun r => r.length))
        (fun y hy => seriesMin_le_mem _ y hy)
      calc (seriesMin (df.map fun r => r.length) : ℚ) *
            ((df.map fun r => r.length).length : ℚ)
          = (((df.map fun r => r.length).length *
              seriesMin (df.map fun r => r.length) : ℕ) : ℚ) := by
            push_cast; ring
        _ ≤ (((df.map fun r => r.length).sum : ℕ) : ℚ) := by exact_mod_cast hnat
    · show seriesMeanNat (df.map fun r => r.length) ≤
        (seriesMax (df.map fun r => r.length) : ℚ)
      rw [seriesMeanNat, div_le_iff₀ hpos]
      have hnat := sum_le_length_mul (df.map fun r => r.length)
        (seriesMax (df.map fun r => r.length))
        (fun y hy => mem_le_seriesMax _ y hy)
      calc (((df.map fun r => r.length).sum : ℕ) : ℚ)
          ≤ (((df.map fun r => r.length).length *
              seriesMax (df.map fun r => r.length) : ℕ) : ℚ) := by exact_mod_cast hnat
        _ = (seriesMax (df.map fun r => r.length) : ℚ) *
            ((df.map fun r => r.length).length : ℚ) := by push_cast; ring
    · show df.countP (fun r => 0 < r.gap_count) ≤ df.length
      exact List.countP_le_length _
    · show df.countP (fun r => 0 < r.gap_count) =
        (df.filter fun r => 0 < r.gap_count).length
      rw [List.countP_eq_length_filter]

theorem stats_exampleRec : get_statistics [exampleRec] = Except.ok exampleStats := by
  rw [get_statistics, if_neg (by simp)]
  simp only [exampleStats, exampleRec, Except.ok.injEq, Statistics.mk.injEq]
  refine ⟨by decide, ?_, by decide, by decide, ?_, by decide⟩
  · show seriesMeanNat [7] = 7
    rw [seriesMeanNat]
    norm_num
  · show seriesMeanRat [1429 / 100] = 1429 / 100
    rw [seriesMeanRat]
    norm_num

/-- C10 witness: the statistics of the one-record example collection. -/
theorem C10_witness :
    (exampleStats.min_length : ℚ) ≤ exampleStats.avg_length ∧
    exampleStats.avg_length ≤ (exampleStats.max_length : ℚ) ∧
    exampleStats.sequences_with_gaps ≤ exampleStats.total_sequences ∧
    exampleStats.total_sequences = [exampleRec].length ∧
    exampleStats.sequences_with_gaps =
      ([exampleRec].filter (fun r => 0 < r.gap_count)).length :=
  C10_stats_invariants [exampleRec] exampleStats stats_exampleRec

example : pySplitWS " ab  cd ".toList = ["ab".toList, "cd".toList] := by decide

example : extract_uniref_id ">UniRef100_UPI0002747C2C desc".toList =
    Except.ok "UPI0002747C2C".toList := by decide

example : extract_uniref_id ">sp|P12345|RHO_HUMAN desc".toList =
    Except.ok "sp|P12345|RHO_HUMAN".toList := by decide

example : pyRound2 (1 / 7 * 100) = 1429 / 100 := by
  norm_num [pyRound2, roundHalfEven, ratFloor_eq]

example :
    (parse [">UniRef1_AB desc".toList, "MK-KVGT".toList]).toOption.map
      (fun rs => rs.map (fun r => (r.uniref_id, r.length, r.gap_count))) =
      some [("AB".toList, 7, 1)] := by decide

end GPCR
